import Mathlib

/-!
Verification development for the jkmem clinical-record system.

Shallow embedding of the two core subsystems:
* the graph persistence layer (`src/jkmem/graph_store.py`): node and
  relationship tables, the five `add_*` upsert operations and the read
  queries `get_patient_timeline` / `get_medication_pairs`.  Both providers
  (`KuzuGraphStore` and `Neo4jGraphStore`) execute literally the same
  Cypher statements, so one state-transformer embedding covers both.
* the tiered query cache (`src/jkmem/cache.py`): `LruCache` (L1),
  `SqliteCache` (L2) and `MultiLevelCache`, plus the cache-invalidation
  behaviour of `Mem0Backend.add` (`src/jkmem/memory_backends.py`).

Conventions: Python `datetime` values and clock readings are modelled as
integers (`Time`); `Optional[X]` becomes `Option X`; graph tables keyed by
a primary key become association lists, with Cypher `MERGE ... SET` as a
keyed upsert and attribute-free `MERGE` of a relationship as
insert-if-absent.  Mutating methods become explicit state passing, with
the current clock reading an explicit argument.
-/

namespace JkMem

/-- Timestamps and clock readings, modelled as integers. -/
abbrev Time := Int

/-- Python truthiness of an `Optional[str]` (used for `if x.encounter_id:`):
`None` and the empty string are falsy. -/
def pyTruthy : Option String → Bool
  | none => false
  | some s => s != ""

/-- Python `a or b` for optionals whose payloads are always truthy
(datetime objects): returns `a` unless it is `None`. -/
def pyOr {α : Type} : Option α → Option α → Option α
  | some a, _ => some a
  | none, b => b

/-- `ObservationCategory` enum from `models.py`. -/
inductive ObservationCategory
  | vital | lab | imaging | note
deriving DecidableEq, Repr

/-- The `.value` string of an `ObservationCategory`. -/
def ObservationCategory.value : ObservationCategory → String
  | .vital => "vital"
  | .lab => "lab"
  | .imaging => "imaging"
  | .note => "note"

/-- `MedicationStatus` enum from `models.py`. -/
inductive MedicationStatus
  | active | stopped | unknown
deriving DecidableEq, Repr

/-- The `.value` string of a `MedicationStatus`. -/
def MedicationStatus.value : MedicationStatus → String
  | .active => "active"
  | .stopped => "stopped"
  | .unknown => "unknown"

/-- `DocumentType` enum from `models.py`. -/
inductive DocumentType
  | report | prescription | lab | imaging | discharge | note | other
deriving DecidableEq, Repr

/-- The `.value` string of a `DocumentType`. -/
def DocumentType.value : DocumentType → String
  | .report => "report"
  | .prescription => "prescription"
  | .lab => "lab"
  | .imaging => "imaging"
  | .discharge => "discharge"
  | .note => "note"
  | .other => "other"

/-- `PatientProfile` (`models.py`), restricted to the fields the graph
layer reads; the unused free-text fields are omitted. -/
structure PatientProfile where
  patient_id : String
  name : Option String
  date_of_birth : Option String
  sex : Option String
deriving DecidableEq, Repr

/-- `Encounter` (`models.py`), restricted to the fields the graph layer
reads; `metadata_created_at` is `metadata.created_at`. -/
structure Encounter where
  encounter_id : String
  patient_id : String
  encounter_type : String
  start_time : Option Time
  end_time : Option Time
  metadata_created_at : Option Time
deriving DecidableEq, Repr

/-- `Observation` (`models.py`), restricted to the fields the graph layer
reads.  `value_numeric` is a DOUBLE in the schema; it is only stored and
copied here, never computed with, so it is modelled as an integer. -/
structure Observation where
  observation_id : String
  patient_id : String
  encounter_id : Option String
  category : ObservationCategory
  name : String
  value : Option String
  value_numeric : Option Int
  unit : Option String
  observed_at : Option Time
deriving DecidableEq, Repr

/-- `Medication` (`models.py`), restricted to the fields the graph layer
reads; `metadata_created_at` is `metadata.created_at`. -/
structure Medication where
  medication_id : String
  patient_id : String
  encounter_id : Option String
  name : String
  indication : Option String
  prescriber : Option String
  status : MedicationStatus
  start_date : Option Time
  end_date : Option Time
  metadata_created_at : Option Time
deriving DecidableEq, Repr

/-- `Document` (`models.py`), restricted to the fields the graph layer
reads. -/
structure Document where
  document_id : String
  patient_id : String
  encounter_id : Option String
  doc_type : DocumentType
  title : Option String
  extracted_at : Option Time
deriving DecidableEq, Repr

/-- Attributes of a `Patient` node (graph schema in `_init_schema`). -/
structure PatientNode where
  name : Option String
  date_of_birth : Option String
  sex : Option String
deriving DecidableEq, Repr

/-- Attributes of an `Encounter` node. -/
structure EncounterNode where
  encounter_type : String
  start_time : Option Time
  end_time : Option Time
deriving DecidableEq, Repr

/-- Attributes of an `Observation` node. -/
structure ObservationNode where
  category : String
  name : String
  value : Option String
  value_numeric : Option Int
  unit : Option String
  observed_at : Option Time
deriving DecidableEq, Repr

/-- Attributes of a `Medication` node. -/
structure MedicationNode where
  name : String
  indication : Option String
  prescriber : Option String
  status : String
  start_date : Option Time
  end_date : Option Time
deriving DecidableEq, Repr

/-- Attributes of a `Document` node. -/
structure DocumentNode where
  doc_type : String
  title : Option String
  extracted_at : Option Time
deriving DecidableEq, Repr

/-- Attributes on a `TAKES_MEDICATION` relationship. -/
structure TakesMedicationRel where
  prescribed_at : Option Time
  indication : Option String
deriving DecidableEq, Repr

/-- Keyed upsert on an association list: Cypher `MERGE (x {key}) SET attrs`
against a table whose key is a primary key.  Replaces the first entry with
the given key, or appends a fresh entry. -/
def upsert {K A : Type} [DecidableEq K] (k : K) (a : A) : List (K × A) → List (K × A)
  | [] => [(k, a)]
  | (k', a') :: rest => if k' = k then (k, a) :: rest else (k', a') :: upsert k a rest

/-- Whether a keyed table holds an entry for `k` (Cypher `MATCH` on the key). -/
def hasKey {K A : Type} [DecidableEq K] (k : K) (l : List (K × A)) : Bool :=
  l.any fun e => decide (e.1 = k)

/-- Attribute lookup by key (reading a matched node's properties). -/
def lookupKey {K A : Type} [DecidableEq K] (k : K) : List (K × A) → Option A
  | [] => none
  | (k', a) :: rest => if k' = k then some a else lookupKey k rest

/-- Number of entries for key `k` in a keyed table. -/
def countKey {K A : Type} [DecidableEq K] (k : K) (l : List (K × A)) : Nat :=
  (l.filter fun e => decide (e.1 = k)).length

/-- Cypher `MERGE` of an attribute-free relationship: insert the edge if it
is not already present. -/
def mergeEdge {K : Type} [DecidableEq K] (e : K) (l : List K) : List K :=
  if e ∈ l then l else l ++ [e]

/-- The whole graph: one association list per node table (keyed by the
primary key) and one list per relationship table (keyed by the endpoint
pair). -/
structure GraphState where
  patients : List (String × PatientNode)
  encounters : List (String × EncounterNode)
  observations : List (String × ObservationNode)
  medications : List (String × MedicationNode)
  documents : List (String × DocumentNode)
  hasEncounter : List ((String × String) × Option Time)
  hasObservation : List (String × String)
  hasMedication : List (String × String)
  hasDocument : List (String × String)
  hasDocumentDirect : List (String × String)
  takesMedication : List ((String × String) × TakesMedicationRel)
deriving DecidableEq, Repr

/-- The freshly initialised (empty) graph. -/
def GraphState.empty : GraphState :=
  ⟨[], [], [], [], [], [], [], [], [], [], []⟩

/-- `add_patient`: `MERGE` the patient node and `SET` its attributes. -/
def addPatient (g : GraphState) (p : PatientProfile) : GraphState :=
  { g with patients := upsert p.patient_id ⟨p.name, p.date_of_birth, p.sex⟩ g.patients }

/-- `add_encounter`: upsert the encounter node, then `MATCH` the patient
and the encounter and `MERGE` the `HAS_ENCOUNTER` edge, `SET`ting its
`created_at` attribute.  The edge statement only fires when both matched
nodes exist. -/
def addEncounter (g : GraphState) (e : Encounter) : GraphState :=
  let created_at := pyOr e.metadata_created_at e.start_time
  let g1 := { g with
    encounters := upsert e.encounter_id ⟨e.encounter_type, e.start_time, e.end_time⟩ g.encounters }
  if hasKey e.patient_id g1.patients && hasKey e.encounter_id g1.encounters then
    { g1 with hasEncounter := upsert (e.patient_id, e.encounter_id) created_at g1.hasEncounter }
  else g1

/-- `add_observation`: upsert the observation node; when `encounter_id` is
truthy, `MERGE` the `HAS_OBSERVATION` edge (both endpoints must match). -/
def addObservation (g : GraphState) (o : Observation) : GraphState :=
  let g1 := { g with
    observations := upsert o.observation_id
      ⟨o.category.value, o.name, o.value, o.value_numeric, o.unit, o.observed_at⟩
      g.observations }
  if pyTruthy o.encounter_id then
    let eid := o.encounter_id.getD ""
    if hasKey eid g1.encounters && hasKey o.observation_id g1.observations then
      { g1 with hasObservation := mergeEdge (eid, o.observation_id) g1.hasObservation }
    else g1
  else g1

/-- `add_medication`: upsert the medication node; when `encounter_id` is
truthy, `MERGE` the `HAS_MEDICATION` edge; then `MERGE` the
`TAKES_MEDICATION` edge from the patient, `SET`ting `prescribed_at`
(`start_date or metadata.created_at`) and `indication`. -/
def addMedication (g : GraphState) (m : Medication) : GraphState :=
  let g1 := { g with
    medications := upsert m.medication_id
      ⟨m.name, m.indication, m.prescriber, m.status.value, m.start_date, m.end_date⟩
      g.medications }
  let g2 :=
    if pyTruthy m.encounter_id then
      let eid := m.encounter_id.getD ""
      if hasKey eid g1.encounters && hasKey m.medication_id g1.medications then
        { g1 with hasMedication := mergeEdge (eid, m.medication_id) g1.hasMedication }
      else g1
    else g1
  let prescribed_at := pyOr m.start_date m.metadata_created_at
  if hasKey m.patient_id g2.patients && hasKey m.medication_id g2.medications then
    { g2 with takesMedication :=
        upsert (m.patient_id, m.medication_id) ⟨prescribed_at, m.indication⟩ g2.takesMedication }
  else g2

/-- `add_document`: upsert the document node; when `encounter_id` is truthy,
`MERGE` the `HAS_DOCUMENT` edge from the encounter, otherwise `MERGE` the
`HAS_DOCUMENT_DIRECT` edge from the patient (endpoints must match). -/
def addDocument (g : GraphState) (d : Document) : GraphState :=
  let g1 := { g with
    documents := upsert d.document_id ⟨d.doc_type.value, d.title, d.extracted_at⟩ g.documents }
  if pyTruthy d.encounter_id then
    let eid := d.encounter_id.getD ""
    if hasKey eid g1.encounters && hasKey d.document_id g1.documents then
      { g1 with hasDocument := mergeEdge (eid, d.document_id) g1.hasDocument }
    else g1
  else
    if hasKey d.patient_id g1.patients && hasKey d.document_id g1.documents then
      { g1 with hasDocumentDirect := mergeEdge (d.patient_id, d.document_id) g1.hasDocumentDirect }
    else g1

/-- One write operation against the graph store. -/
inductive GraphOp
  | patient (p : PatientProfile)
  | encounter (e : Encounter)
  | observation (o : Observation)
  | medication (m : Medication)
  | document (d : Document)
deriving DecidableEq, Repr

/-- Apply one write operation. -/
def applyOp (g : GraphState) : GraphOp → GraphState
  | .patient p => addPatient g p
  | .encounter e => addEncounter g e
  | .observation o => addObservation g o
  | .medication m => addMedication g m
  | .document d => addDocument g d

/-- Apply a sequence of write operations in order. -/
def applyOps (g : GraphState) (ops : List GraphOp) : GraphState :=
  ops.foldl applyOp g

/-- Whether a trace contains an `add_document` call for document id `did`
with a truthy `encounter_id`. -/
def docWrittenWithEncounter (ops : List GraphOp) (did : String) : Bool :=
  ops.any fun op =>
    match op with
    | .document doc => decide (doc.document_id = did) && pyTruthy doc.encounter_id
    | _ => false

/-- Whether a trace contains an `add_document` call for document id `did`
without a truthy `encounter_id`. -/
def docWrittenWithoutEncounter (ops : List GraphOp) (did : String) : Bool :=
  ops.any fun op =>
    match op with
    | .document doc => decide (doc.document_id = did) && !pyTruthy doc.encounter_id
    | _ => false

/-- Well-formedness of a graph state: every node table has pairwise
distinct primary keys and every relationship table has pairwise distinct
endpoint keys (what the engines' primary keys and `MERGE` guarantee). -/
def GraphState.wf (g : GraphState) : Prop :=
  (g.patients.map Prod.fst).Nodup ∧
  (g.encounters.map Prod.fst).Nodup ∧
  (g.observations.map Prod.fst).Nodup ∧
  (g.medications.map Prod.fst).Nodup ∧
  (g.documents.map Prod.fst).Nodup ∧
  (g.hasEncounter.map Prod.fst).Nodup ∧
  g.hasObservation.Nodup ∧
  g.hasMedication.Nodup ∧
  g.hasDocument.Nodup ∧
  g.hasDocumentDirect.Nodup ∧
  (g.takesMedication.map Prod.fst).Nodup

instance (g : GraphState) : Decidable g.wf := by
  unfold GraphState.wf
  infer_instance

/-- Lexicographic order on character lists, the order both engines use to
compare STRING values with `<`. -/
def charListLt : List Char → List Char → Bool
  | _, [] => false
  | [], _ :: _ => true
  | a :: as, b :: bs => a < b || (a == b && charListLt as bs)

/-- Cypher `<` on STRING values: lexicographic comparison. -/
def strLt (a b : String) : Bool :=
  charListLt a.data b.data

/-- One row of `get_patient_timeline`. -/
structure TimelineEvent where
  event_type : String
  ref_id : String
  event_time : Option Time
deriving DecidableEq, Repr

/-- `ORDER BY event_time DESC` as a total Boolean comparison on nullable
timestamps; a null timestamp sorts after every non-null one (the engines
leave the placement of nulls unspecified, and every theorem below that
depends on order only involves non-null timestamps). -/
def timeDescLe : Option Time → Option Time → Bool
  | some a, some b => decide (b ≤ a)
  | some _, none => true
  | none, some _ => false
  | none, none => true

/-- The event ordering of the timeline query, as a decidable relation. -/
def eventDescLe (a b : TimelineEvent) : Prop :=
  timeDescLe a.event_time b.event_time = true

instance : DecidableRel eventDescLe := fun a b => by
  unfold eventDescLe
  infer_instance

instance : IsTotal TimelineEvent eventDescLe := by
  constructor
  intro a b
  rcases a with ⟨_, _, _ | x⟩ <;> rcases b with ⟨_, _, _ | y⟩ <;>
    simp [eventDescLe, timeDescLe] <;> exact le_total y x

instance : IsTrans TimelineEvent eventDescLe := by
  constructor
  intro a b c hab hbc
  rcases a with ⟨_, _, _ | x⟩ <;> rcases b with ⟨_, _, _ | y⟩ <;>
    rcases c with ⟨_, _, _ | z⟩ <;> simp_all [eventDescLe, timeDescLe] <;>
    exact le_trans hbc hab

/-- The three `UNION ALL` branches of `get_patient_timeline`, before
sorting: one event per `HAS_ENCOUNTER` edge of the patient (event time =
the encounter's `start_time`), one per `TAKES_MEDICATION` edge (event time
= the medication's `start_date`), one per `HAS_DOCUMENT_DIRECT` edge
(event time = the document's `extracted_at`).  Each `MATCH` requires the
patient node and the target node to exist. -/
def timelineEvents (g : GraphState) (patient_id : String) : List TimelineEvent :=
  if hasKey patient_id g.patients then
    let encEvents := g.hasEncounter.filterMap fun e =>
      if e.1.1 = patient_id then
        (lookupKey e.1.2 g.encounters).map fun n =>
          { event_type := "encounter", ref_id := e.1.2, event_time := n.start_time }
      else none
    let medEvents := g.takesMedication.filterMap fun e =>
      if e.1.1 = patient_id then
        (lookupKey e.1.2 g.medications).map fun n =>
          { event_type := "medication", ref_id := e.1.2, event_time := n.start_date }
      else none
    let docEvents := g.hasDocumentDirect.filterMap fun e =>
      if e.1 = patient_id then
        (lookupKey e.2 g.documents).map fun n =>
          { event_type := "document", ref_id := e.2, event_time := n.extracted_at }
      else none
    encEvents ++ medEvents ++ docEvents
  else []

/-- `get_patient_timeline`: the three event kinds merged, sorted by event
time descending (`ORDER BY event_time DESC`) and truncated (`LIMIT`). -/
def getPatientTimeline (g : GraphState) (patient_id : String) (limit : Nat) :
    List TimelineEvent :=
  (List.insertionSort eventDescLe (timelineEvents g patient_id)).take limit

/-- The `(medication_id, name)` rows matched by
`(p)-[:TAKES_MEDICATION]->(m)` for a given patient. -/
def patientMedications (g : GraphState) (patient_id : String) : List (String × String) :=
  if hasKey patient_id g.patients then
    g.takesMedication.filterMap fun e =>
      if e.1.1 = patient_id then
        (lookupKey e.1.2 g.medications).map fun n => (e.1.2, n.name)
      else none
  else []

/-- One row of `get_medication_pairs`. -/
structure MedicationPair where
  medication_a_id : String
  medication_a_name : String
  medication_b_id : String
  medication_b_name : String
deriving DecidableEq, Repr

/-- `get_medication_pairs`: the self-join of the patient's
`TAKES_MEDICATION` matches filtered by
`WHERE m1.medication_id < m2.medication_id`. -/
def getMedicationPairs (g : GraphState) (patient_id : String) : List MedicationPair :=
  let meds := patientMedications g patient_id
  meds.flatMap fun m1 =>
    meds.filterMap fun m2 =>
      if strLt m1.1 m2.1 then
        some ⟨m1.1, m1.2, m2.1, m2.2⟩
      else none

/-- Python objects held by the cache layers; `null` is Python `None`. -/
inductive Val
  | null
  | str (s : String)
  | num (n : Int)
deriving DecidableEq, Repr

/-- The L1 cache (`LruCache` in `cache.py`): a bounded, access-ordered map.
`data` lists entries from least recently used (front) to most recently
used (back); each entry carries its absolute expiry instant (`none` when
the TTL is zero, meaning never expires). -/
structure LruCache where
  capacity : Int
  ttl_seconds : Int
  data : List (String × Option Time × Val)
deriving DecidableEq, Repr

/-- `LruCache.__init__`: the capacity is clamped to at least 1 and the TTL
to at least 0 (`max(1, capacity)`, `max(0, ttl_seconds)`); the map starts
empty. -/
def LruCache.init (capacity ttl_seconds : Int) : LruCache :=
  { capacity := max 1 capacity, ttl_seconds := max 0 ttl_seconds, data := [] }

/-- `LruCache.get` at clock reading `now`: an absent key yields Python
`None` (`Val.null`); an expired entry (`expires_at <= now`) is popped and
yields `None`; otherwise the entry moves to the most-recently-used
position and its value is returned. -/
def LruCache.get (c : LruCache) (now : Time) (key : String) : Val × LruCache :=
  match c.data.find? (fun e => decide (e.1 = key)) with
  | none => (.null, c)
  | some (_, expires_at, value) =>
    match expires_at with
    | some t =>
      if t ≤ now then
        (.null, { c with data := c.data.filter fun e => !decide (e.1 = key) })
      else
        (value, { c with data :=
          (c.data.filter fun e => !decide (e.1 = key)) ++ [(key, expires_at, value)] })
    | none =>
      (value, { c with data :=
        (c.data.filter fun e => !decide (e.1 = key)) ++ [(key, expires_at, value)] })

/-- `LruCache.set` at clock reading `now`: store the entry with a fresh
expiry (`now + ttl` when the TTL is positive, never-expiring otherwise),
move it to the most-recently-used position, then pop the
least-recently-used entry if the size exceeds the capacity. -/
def LruCache.set (c : LruCache) (now : Time) (key : String) (value : Val) : LruCache :=
  let expires_at : Option Time :=
    if c.ttl_seconds > 0 then some (now + c.ttl_seconds) else none
  let d1 := (c.data.filter fun e => !decide (e.1 = key)) ++ [(key, expires_at, value)]
  let d2 := if (d1.length : Int) > c.capacity then d1.tail else d1
  { c with data := d2 }

/-- `LruCache.clear`: drop every entry. -/
def LruCache.clear (c : LruCache) : LruCache :=
  { c with data := [] }

/-- Whether the L1 map currently holds an entry for `key`. -/
def LruCache.containsKey (c : LruCache) (key : String) : Bool :=
  c.data.any fun e => decide (e.1 = key)

/-- An L2 row's TEXT payload: `ok v` JSON-decodes to `v` (everything `set`
writes decodes back to what was written — the `json.dumps`/`json.loads`
round-trip is the identity in this model); `bad` is a payload that fails
JSON decoding. -/
inductive Payload
  | ok (v : Val)
  | bad
deriving DecidableEq, Repr

/-- The L2 cache (`SqliteCache` in `cache.py`): persistent rows of
`(cache_key, cache_value, updated_at, ttl_seconds)`, the TTL stored per
row at write time. -/
structure SqliteCache where
  ttl_seconds : Int
  rows : List (String × Payload × Time × Int)
deriving DecidableEq, Repr

/-- `SqliteCache.__init__`: the TTL is clamped to at least 0 and the table
starts empty (fresh database file). -/
def SqliteCache.init (ttl_seconds : Int) : SqliteCache :=
  { ttl_seconds := max 0 ttl_seconds, rows := [] }

/-- `SqliteCache.get` at clock reading `now`: a missing row yields `None`;
an expired row (`ttl > 0` and `updated_at + ttl <= now`) is deleted and
yields `None`; otherwise the payload is JSON-decoded, a decode failure
yielding `None` without touching the row. -/
def SqliteCache.get (c : SqliteCache) (now : Time) (key : String) : Val × SqliteCache :=
  match c.rows.find? (fun r => decide (r.1 = key)) with
  | none => (.null, c)
  | some (_, payload, updated_at, ttl) =>
    if ttl > 0 ∧ updated_at + ttl ≤ now then
      (.null, { c with rows := c.rows.filter fun r => !decide (r.1 = key) })
    else
      match payload with
      | .ok v => (v, c)
      | .bad => (.null, c)

/-- `SqliteCache.set` at clock reading `now`: upsert the row keyed by
`key`, storing the encoded value, `now` and the cache's configured TTL. -/
def SqliteCache.set (c : SqliteCache) (now : Time) (key : String) (value : Val) : SqliteCache :=
  { c with rows :=
      (c.rows.filter fun r => !decide (r.1 = key)) ++ [(key, .ok value, now, c.ttl_seconds)] }

/-- `SqliteCache.clear`: delete every row. -/
def SqliteCache.clear (c : SqliteCache) : SqliteCache :=
  { c with rows := [] }

/-- Whether the L2 table currently holds a row for `key`. -/
def SqliteCache.containsKey (c : SqliteCache) (key : String) : Bool :=
  c.rows.any fun r => decide (r.1 = key)

/-- The composite cache (`MultiLevelCache` in `cache.py`): an L1 layer and
an optional L2 layer. -/
structure MultiLevelCache where
  l1 : LruCache
  l2 : Option SqliteCache
deriving DecidableEq, Repr

/-- `MultiLevelCache.get`: consult L1; a non-`None` value is returned
directly.  Otherwise consult L2 (when present); a non-`None` L2 value is
promoted into L1 before being returned.  Python's `value is not None`
check makes a stored `None` indistinguishable from a miss. -/
def MultiLevelCache.get (c : MultiLevelCache) (now : Time) (key : String) :
    Val × MultiLevelCache :=
  let r1 := c.l1.get now key
  if r1.1 ≠ .null then
    (r1.1, { c with l1 := r1.2 })
  else
    match c.l2 with
    | none => (.null, { c with l1 := r1.2 })
    | some s2 =>
      let r2 := s2.get now key
      if r2.1 ≠ .null then
        (r2.1, { l1 := r1.2.set now key r2.1, l2 := some r2.2 })
      else
        (.null, { l1 := r1.2, l2 := some r2.2 })

/-- `MultiLevelCache.set`: write through to L1 and (when present) L2. -/
def MultiLevelCache.set (c : MultiLevelCache) (now : Time) (key : String) (value : Val) :
    MultiLevelCache :=
  { l1 := c.l1.set now key value, l2 := c.l2.map fun s2 => s2.set now key value }

/-- `MultiLevelCache.clear`: clear both layers. -/
def MultiLevelCache.clear (c : MultiLevelCache) : MultiLevelCache :=
  { l1 := c.l1.clear, l2 := c.l2.map SqliteCache.clear }

/-- `Mem0Backend` (`memory_backends.py`): the external mem0 `Memory` store
(abstracted as a value of type `M`) plus the optional tiered cache built
by `_build_cache`. -/
structure Mem0Backend (M : Type) where
  memory : M
  cache : Option MultiLevelCache

/-- `Mem0Backend.add`: delegate the write to the underlying memory
(`memAdd` abstracts the external `Memory.add`), then clear the entire
tiered cache when one is configured (`if self._cache: self._cache.clear()`;
a present cache object is always truthy). -/
def Mem0Backend.add {M : Type} (memAdd : M → M) (b : Mem0Backend M) : Mem0Backend M :=
  { memory := memAdd b.memory, cache := b.cache.map MultiLevelCache.clear }

/-- A concrete patient used by the concrete test scenarios below. -/
def samplePatient : PatientProfile :=
  ⟨"p1", some "Alice", none, none⟩

/-- A concrete encounter for `samplePatient` starting at time 100. -/
def sampleEncounter : Encounter :=
  ⟨"e1", "p1", "outpatient", some 100, none, none⟩

/-- A concrete medication for `samplePatient` starting at time 50. -/
def sampleMedication1 : Medication :=
  ⟨"m1", "p1", none, "metformin", none, none, .active, some 50, none, none⟩

/-- A second concrete medication for `samplePatient` starting at time 60. -/
def sampleMedication2 : Medication :=
  ⟨"m2", "p1", none, "aspirin", none, none, .active, some 60, none, none⟩

/-- A concrete document for `samplePatient` with no encounter, extracted at
time 200. -/
def sampleDocument : Document :=
  ⟨"d1", "p1", none, .report, some "ct scan", some 200⟩

/-- The same document id written with a truthy `encounter_id`. -/
def sampleDocumentWithEncounter : Document :=
  ⟨"d1", "p1", some "e1", .report, some "ct scan", some 200⟩

/-- Graph with an encounter at 100, a medication starting at 50 and a
directly attached document extracted at 200 (the spec's timeline
scenario with T3 > T1 > T2). -/
def sampleTimelineGraph : GraphState :=
  applyOps .empty
    [.patient samplePatient, .encounter sampleEncounter,
     .medication sampleMedication1, .document sampleDocument]

/-- Graph with one patient taking medications "m1" and "m2" (the spec's
medication-pair scenario). -/
def samplePairsGraph : GraphState :=
  applyOps .empty
    [.patient samplePatient, .medication sampleMedication1, .medication sampleMedication2]

/-- A trace that writes document "d1" once with an encounter id and once
without one. -/
def sampleMixedDocumentOps : List GraphOp :=
  [.patient samplePatient, .encounter sampleEncounter,
   .document sampleDocumentWithEncounter, .document sampleDocument]

/-- The patient-and-encounter graph the document scenarios start from. -/
def samplePatientEncounterGraph : GraphState :=
  applyOps .empty [.patient samplePatient, .encounter sampleEncounter]

/-- A composite cache with both tiers configured and one live entry under
key "k" in each tier, written at time 0 with no expiry. -/
def sampleLoadedCache : MultiLevelCache :=
  (MultiLevelCache.mk (LruCache.init 4 0) (some (SqliteCache.init 0))).set 0 "k" (.str "v")

/-- The LRU scenario cache: capacity 2, no expiry, keys "a", "b", "c"
inserted at times 0, 1, 2. -/
def sampleLru3 : LruCache :=
  (((LruCache.init 2 0).set 0 "a" (Val.str "va")).set 1 "b" (Val.str "vb")).set 2 "c"
    (Val.str "vc")

/-- An L1 cache whose only entry under "k" stores Python `None`. -/
def sampleNullLru : LruCache :=
  { capacity := 4, ttl_seconds := 0, data := [("k", none, Val.null)] }

/-- An L2 cache whose only row under "k" has an undecodable payload. -/
def sampleBadSqlite : SqliteCache :=
  { ttl_seconds := 0, rows := [("k", Payload.bad, 0, 0)] }

/-- A composite cache built from `sampleNullLru` and `sampleBadSqlite`. -/
def sampleNullCache : MultiLevelCache :=
  ⟨sampleNullLru, some sampleBadSqlite⟩

/-! ### Association-list lemmas -/

/-- Upserting the same key/attribute pair twice equals upserting once. -/
theorem upsert_upsert_same {K A : Type} [DecidableEq K] (k : K) (a : A) (l : List (K × A)) :
    upsert k a (upsert k a l) = upsert k a l := by
  induction l with
  | nil => simp [upsert]
  | cons e rest ih =>
    rcases e with ⟨k', a'⟩
    by_cases h : k' = k
    · simp [upsert, h]
    · simp [upsert, h, ih]

/-- Merging the same edge twice equals merging once. -/
theorem mergeEdge_mergeEdge {K : Type} [DecidableEq K] (e : K) (l : List K) :
    mergeEdge e (mergeEdge e l) = mergeEdge e l := by
  unfold mergeEdge
  by_cases h : e ∈ l
  · simp [h]
  · simp [h]

/-- The merged edge is a member of the merged list. -/
theorem mem_mergeEdge_self {K : Type} [DecidableEq K] (e : K) (l : List K) :
    e ∈ mergeEdge e l := by
  unfold mergeEdge
  by_cases h : e ∈ l
  · simpa [h] using h
  · simp [h]

/-- Members of a merged list come from the original list or are the merged
edge. -/
theorem mem_mergeEdge_elim {K : Type} [DecidableEq K] {x e : K} {l : List K}
    (h : x ∈ mergeEdge e l) : x ∈ l ∨ x = e := by
  unfold mergeEdge at h
  by_cases hm : e ∈ l
  · simp [hm] at h
    exact Or.inl h
  · simp [hm] at h
    exact h

/-- `hasKey` on a cons cell. -/
theorem hasKey_cons {K A : Type} [DecidableEq K] (k : K) (e : K × A) (l : List (K × A)) :
    hasKey k (e :: l) = (decide (e.1 = k) || hasKey k l) := by
  simp [hasKey]

/-- `hasKey` agrees with membership of the key list. -/
theorem hasKey_iff_mem {K A : Type} [DecidableEq K] (k : K) (l : List (K × A)) :
    hasKey k l = true ↔ k ∈ l.map Prod.fst := by
  induction l with
  | nil => simp [hasKey]
  | cons e rest ih =>
    rw [hasKey_cons]
    simp [ih]
    constructor
    · rintro (h | h)
      · exact Or.inl h.symm
      · exact Or.inr h
    · rintro (h | h)
      · exact Or.inl h.symm
      · exact Or.inr h

/-- The upserted key is present afterwards. -/
theorem hasKey_upsert_self {K A : Type} [DecidableEq K] (k : K) (a : A) (l : List (K × A)) :
    hasKey k (upsert k a l) = true := by
  induction l with
  | nil => simp [upsert, hasKey]
  | cons e rest ih =>
    rcases e with ⟨k', a'⟩
    by_cases h : k' = k
    · simp [upsert, h, hasKey_cons]
    · simp [upsert, h, hasKey_cons, ih]

/-- Upserting a present key leaves the key list unchanged. -/
theorem map_fst_upsert_of_hasKey {K A : Type} [DecidableEq K] (k : K) (a : A)
    (l : List (K × A)) (h : hasKey k l = true) :
    (upsert k a l).map Prod.fst = l.map Prod.fst := by
  induction l with
  | nil => simp [hasKey] at h
  | cons e rest ih =>
    rcases e with ⟨k', a'⟩
    rw [hasKey_cons] at h
    by_cases hk : k' = k
    · simp [upsert, hk]
    · simp [hk] at h
      simp [upsert, hk, ih h]

/-- Upserting an absent key appends it to the key list. -/
theorem map_fst_upsert_of_not_hasKey {K A : Type} [DecidableEq K] (k : K) (a : A)
    (l : List (K × A)) (h : hasKey k l = false) :
    (upsert k a l).map Prod.fst = l.map Prod.fst ++ [k] := by
  induction l with
  | nil => simp [upsert]
  | cons e rest ih =>
    rcases e with ⟨k', a'⟩
    rw [hasKey_cons] at h
    rw [Bool.or_eq_false_iff] at h
    obtain ⟨h1, h2⟩ := h
    have hk : ¬(k' = k) := by simpa using h1
    simp [upsert, hk, ih h2]

/-- Upserts preserve distinctness of the key list. -/
theorem nodup_map_fst_upsert {K A : Type} [DecidableEq K] (k : K) (a : A)
    (l : List (K × A)) (h : (l.map Prod.fst).Nodup) :
    ((upsert k a l).map Prod.fst).Nodup := by
  by_cases hk : hasKey k l = true
  · rwa [map_fst_upsert_of_hasKey k a l hk]
  · rw [map_fst_upsert_of_not_hasKey k a l (by simpa using hk)]
    have hnm : k ∉ l.map Prod.fst := fun hm => hk ((hasKey_iff_mem k l).mpr hm)
    simp [List.nodup_append, h, hnm]

/-- Edge merges preserve distinctness. -/
theorem nodup_mergeEdge {K : Type} [DecidableEq K] (e : K) (l : List K) (h : l.Nodup) :
    (mergeEdge e l).Nodup := by
  unfold mergeEdge
  by_cases hm : e ∈ l
  · simp [hm, h]
  · simp [hm, List.nodup_append, h]

/-- `countKey` on a cons cell. -/
theorem countKey_cons {K A : Type} [DecidableEq K] (k : K) (e : K × A) (l : List (K × A)) :
    countKey k (e :: l) = (if e.1 = k then 1 else 0) + countKey k l := by
  simp only [countKey, List.filter_cons]
  split
  · next hcond =>
    have : e.1 = k := by simpa using hcond
    simp [this, Nat.add_comm]
  · next hcond =>
    have : ¬(e.1 = k) := by simpa using hcond
    simp [this]

/-- A key that is absent has count zero. -/
theorem countKey_eq_zero_of_not_hasKey {K A : Type} [DecidableEq K] (k : K)
    (l : List (K × A)) (h : hasKey k l = false) : countKey k l = 0 := by
  induction l with
  | nil => simp [countKey]
  | cons e rest ih =>
    rw [hasKey_cons, Bool.or_eq_false_iff] at h
    obtain ⟨h1, h2⟩ := h
    have hk : ¬(e.1 = k) := by simpa using h1
    rw [countKey_cons]
    simp [hk, ih h2]

/-- After an upsert into a table with distinct keys, the upserted key
occurs exactly once. -/
theorem countKey_upsert {K A : Type} [DecidableEq K] (k : K) (a : A)
    (l : List (K × A)) (h : (l.map Prod.fst).Nodup) :
    countKey k (upsert k a l) = 1 := by
  induction l with
  | nil => simp [upsert, countKey]
  | cons e rest ih =>
    rcases e with ⟨k', a'⟩
    simp only [List.map_cons, List.nodup_cons] at h
    obtain ⟨h1, h2⟩ := h
    by_cases hk : k' = k
    · subst hk
      have hz : countKey k' rest = 0 := by
        apply countKey_eq_zero_of_not_hasKey
        by_cases hh : hasKey k' rest = true
        · exact absurd ((hasKey_iff_mem k' rest).mp hh) h1
        · simpa using hh
      simp [upsert, countKey_cons, hz]
    · rw [upsert]
      simp only [if_neg hk]
      rw [countKey_cons]
      simp [hk, ih h2]

/-! ### Idempotence of the five write operations -/

/-- `add_patient` applied twice with the same entity equals once. -/
theorem addPatient_idem (g : GraphState) (p : PatientProfile) :
    addPatient (addPatient g p) p = addPatient g p := by
  simp [addPatient, upsert_upsert_same]

/-- `add_encounter` applied twice with the same entity equals once. -/
theorem addEncounter_idem (g : GraphState) (e : Encounter) :
    addEncounter (addEncounter g e) e = addEncounter g e := by
  rcases g with ⟨ps, es, os, ms, ds, he, ho, hm, hd, hdd, tm⟩
  by_cases hc : (hasKey e.patient_id ps &&
      hasKey e.encounter_id (upsert e.encounter_id
        ⟨e.encounter_type, e.start_time, e.end_time⟩ es)) = true <;>
    simp [addEncounter, hc, upsert_upsert_same]

/-- `add_observation` applied twice with the same entity equals once. -/
theorem addObservation_idem (g : GraphState) (o : Observation) :
    addObservation (addObservation g o) o = addObservation g o := by
  rcases g with ⟨ps, es, os, ms, ds, he, ho, hm, hd, hdd, tm⟩
  by_cases ht : pyTruthy o.encounter_id = true <;>
    by_cases hc : (hasKey (o.encounter_id.getD "") es &&
        hasKey o.observation_id (upsert o.observation_id
          ⟨o.category.value, o.name, o.value, o.value_numeric, o.unit, o.observed_at⟩ os)) = true <;>
    simp [addObservation, ht, hc, upsert_upsert_same, mergeEdge_mergeEdge]

/-- `add_medication` applied twice with the same entity equals once. -/
theorem addMedication_idem (g : GraphState) (m : Medication) :
    addMedication (addMedication g m) m = addMedication g m := by
  rcases g with ⟨ps, es, os, ms, ds, he, ho, hm, hd, hdd, tm⟩
  by_cases ht : pyTruthy m.encounter_id = true <;>
    by_cases hc1 : (hasKey (m.encounter_id.getD "") es &&
        hasKey m.medication_id (upsert m.medication_id
          ⟨m.name, m.indication, m.prescriber, m.status.value, m.start_date, m.end_date⟩ ms)) = true <;>
    by_cases hc2 : (hasKey m.patient_id ps &&
        hasKey m.medication_id (upsert m.medication_id
          ⟨m.name, m.indication, m.prescriber, m.status.value, m.start_date, m.end_date⟩ ms)) = true <;>
    simp [addMedication, ht, hc1, hc2, upsert_upsert_same, mergeEdge_mergeEdge]

/-- `add_document` applied twice with the same entity equals once. -/
theorem addDocument_idem (g : GraphState) (d : Document) :
    addDocument (addDocument g d) d = addDocument g d := by
  rcases g with ⟨ps, es, os, ms, ds, he, ho, hm, hd, hdd, tm⟩
  by_cases ht : pyTruthy d.encounter_id = true <;>
    by_cases hc1 : (hasKey (d.encounter_id.getD "") es &&
        hasKey d.document_id (upsert d.document_id
          ⟨d.doc_type.value, d.title, d.extracted_at⟩ ds)) = true <;>
    by_cases hc2 : (hasKey d.patient_id ps &&
        hasKey d.document_id (upsert d.document_id
          ⟨d.doc_type.value, d.title, d.extracted_at⟩ ds)) = true <;>
    simp [addDocument, ht, hc1, hc2, upsert_upsert_same, mergeEdge_mergeEdge]

/-! ### Well-formedness preservation -/

/-- `add_patient` preserves well-formedness. -/
theorem wf_addPatient (g : GraphState) (p : PatientProfile) (hw : g.wf) :
    (addPatient g p).wf := by
  obtain ⟨h1, h2, h3, h4, h5, h6, h7, h8, h9, h10, h11⟩ := hw
  exact ⟨nodup_map_fst_upsert _ _ _ h1, h2, h3, h4, h5, h6, h7, h8, h9, h10, h11⟩

/-- `add_encounter` preserves well-formedness. -/
theorem wf_addEncounter (g : GraphState) (e : Encounter) (hw : g.wf) :
    (addEncounter g e).wf := by
  obtain ⟨h1, h2, h3, h4, h5, h6, h7, h8, h9, h10, h11⟩ := hw
  unfold addEncounter
  dsimp only
  split
  · exact ⟨h1, nodup_map_fst_upsert _ _ _ h2, h3, h4, h5,
      nodup_map_fst_upsert _ _ _ h6, h7, h8, h9, h10, h11⟩
  · exact ⟨h1, nodup_map_fst_upsert _ _ _ h2, h3, h4, h5, h6, h7, h8, h9, h10, h11⟩

/-- `add_observation` preserves well-formedness. -/
theorem wf_addObservation (g : GraphState) (o : Observation) (hw : g.wf) :
    (addObservation g o).wf := by
  obtain ⟨h1, h2, h3, h4, h5, h6, h7, h8, h9, h10, h11⟩ := hw
  unfold addObservation
  dsimp only
  split
  · split
    · exact ⟨h1, h2, nodup_map_fst_upsert _ _ _ h3, h4, h5, h6,
        nodup_mergeEdge _ _ h7, h8, h9, h10, h11⟩
    · exact ⟨h1, h2, nodup_map_fst_upsert _ _ _ h3, h4, h5, h6, h7, h8, h9, h10, h11⟩
  · exact ⟨h1, h2, nodup_map_fst_upsert _ _ _ h3, h4, h5, h6, h7, h8, h9, h10, h11⟩

/-- `add_medication` preserves well-formedness. -/
theorem wf_addMedication (g : GraphState) (m : Medication) (hw : g.wf) :
    (addMedication g m).wf := by
  obtain ⟨h1, h2, h3, h4, h5, h6, h7, h8, h9, h10, h11⟩ := hw
  unfold addMedication
  dsimp only
  split
  · split
    · split
      · exact ⟨h1, h2, h3, nodup_map_fst_upsert _ _ _ h4, h5, h6, h7,
          nodup_mergeEdge _ _ h8, h9, h10, nodup_map_fst_upsert _ _ _ h11⟩
      · exact ⟨h1, h2, h3, nodup_map_fst_upsert _ _ _ h4, h5, h6, h7,
          nodup_mergeEdge _ _ h8, h9, h10, h11⟩
    · split
      · exact ⟨h1, h2, h3, nodup_map_fst_upsert _ _ _ h4, h5, h6, h7, h8, h9, h10,
          nodup_map_fst_upsert _ _ _ h11⟩
      · exact ⟨h1, h2, h3, nodup_map_fst_upsert _ _ _ h4, h5, h6, h7, h8, h9, h10, h11⟩
  · split
    · exact ⟨h1, h2, h3, nodup_map_fst_upsert _ _ _ h4, h5, h6, h7, h8, h9, h10,
        nodup_map_fst_upsert _ _ _ h11⟩
    · exact ⟨h1, h2, h3, nodup_map_fst_upsert _ _ _ h4, h5, h6, h7, h8, h9, h10, h11⟩

/-- `add_document` preserves well-formedness. -/
theorem wf_addDocument (g : GraphState) (d : Document) (hw : g.wf) :
    (addDocument g d).wf := by
  obtain ⟨h1, h2, h3, h4, h5, h6, h7, h8, h9, h10, h11⟩ := hw
  unfold addDocument
  dsimp only
  split
  · split
    · exact ⟨h1, h2, h3, h4, nodup_map_fst_upsert _ _ _ h5, h6, h7, h8,
        nodup_mergeEdge _ _ h9, h10, h11⟩
    · exact ⟨h1, h2, h3, h4, nodup_map_fst_upsert _ _ _ h5, h6, h7, h8, h9, h10, h11⟩
  · split
    · exact ⟨h1, h2, h3, h4, nodup_map_fst_upsert _ _ _ h5, h6, h7, h8, h9,
        nodup_mergeEdge _ _ h10, h11⟩
    · exact ⟨h1, h2, h3, h4, nodup_map_fst_upsert _ _ _ h5, h6, h7, h8, h9, h10, h11⟩


/-! ### Document-edge provenance along a trace -/

/-- `docWrittenWithEncounter` on a cons cell. -/
theorem docWrittenWithEncounter_cons (op : GraphOp) (rest : List GraphOp) (did : String) :
    docWrittenWithEncounter (op :: rest) did =
      ((match op with
        | GraphOp.document doc => decide (doc.document_id = did) && pyTruthy doc.encounter_id
        | _ => false) || docWrittenWithEncounter rest did) := by
  simp [docWrittenWithEncounter]

/-- `docWrittenWithoutEncounter` on a cons cell. -/
theorem docWrittenWithoutEncounter_cons (op : GraphOp) (rest : List GraphOp) (did : String) :
    docWrittenWithoutEncounter (op :: rest) did =
      ((match op with
        | GraphOp.document doc => decide (doc.document_id = did) && !pyTruthy doc.encounter_id
        | _ => false) || docWrittenWithoutEncounter rest did) := by
  simp [docWrittenWithoutEncounter]

/-- A `HAS_DOCUMENT` edge present after one operation was already present
or was written by an `add_document` call with a truthy encounter id. -/
theorem hasDocument_applyOp (g : GraphState) (op : GraphOp) :
    ∀ x ∈ (applyOp g op).hasDocument, x ∈ g.hasDocument ∨
      ∃ d, op = GraphOp.document d ∧ d.document_id = x.2 ∧ pyTruthy d.encounter_id = true := by
  intro x hx
  cases op with
  | patient p => exact Or.inl hx
  | encounter e =>
    have he : (addEncounter g e).hasDocument = g.hasDocument := by
      unfold addEncounter
      dsimp only
      split <;> rfl
    simp only [applyOp] at hx
    rw [he] at hx
    exact Or.inl hx
  | observation o =>
    have ho : (addObservation g o).hasDocument = g.hasDocument := by
      unfold addObservation
      dsimp only
      split_ifs <;> rfl
    simp only [applyOp] at hx
    rw [ho] at hx
    exact Or.inl hx
  | medication m =>
    have hm : (addMedication g m).hasDocument = g.hasDocument := by
      unfold addMedication
      dsimp only
      split_ifs <;> rfl
    simp only [applyOp] at hx
    rw [hm] at hx
    exact Or.inl hx
  | document d =>
    simp only [applyOp] at hx
    unfold addDocument at hx
    dsimp only at hx
    by_cases ht : pyTruthy d.encounter_id = true
    · rw [if_pos ht] at hx
      split at hx
      · rcases mem_mergeEdge_elim hx with h | h
        · exact Or.inl h
        · subst h
          exact Or.inr ⟨d, rfl, rfl, ht⟩
      · exact Or.inl hx
    · rw [if_neg ht] at hx
      split at hx
      · exact Or.inl hx
      · exact Or.inl hx

/-- A `HAS_DOCUMENT_DIRECT` edge present after one operation was already
present or was written by an `add_document` call without a truthy
encounter id. -/
theorem hasDocumentDirect_applyOp (g : GraphState) (op : GraphOp) :
    ∀ x ∈ (applyOp g op).hasDocumentDirect, x ∈ g.hasDocumentDirect ∨
      ∃ d, op = GraphOp.document d ∧ d.document_id = x.2 ∧ pyTruthy d.encounter_id = false := by
  intro x hx
  cases op with
  | patient p => exact Or.inl hx
  | encounter e =>
    have he : (addEncounter g e).hasDocumentDirect = g.hasDocumentDirect := by
      unfold addEncounter
      dsimp only
      split <;> rfl
    simp only [applyOp] at hx
    rw [he] at hx
    exact Or.inl hx
  | observation o =>
    have ho : (addObservation g o).hasDocumentDirect = g.hasDocumentDirect := by
      unfold addObservation
      dsimp only
      split_ifs <;> rfl
    simp only [applyOp] at hx
    rw [ho] at hx
    exact Or.inl hx
  | medication m =>
    have hm : (addMedication g m).hasDocumentDirect = g.hasDocumentDirect := by
      unfold addMedication
      dsimp only
      split_ifs <;> rfl
    simp only [applyOp] at hx
    rw [hm] at hx
    exact Or.inl hx
  | document d =>
    simp only [applyOp] at hx
    unfold addDocument at hx
    dsimp only at hx
    by_cases ht : pyTruthy d.encounter_id = true
    · rw [if_pos ht] at hx
      split at hx
      · exact Or.inl hx
      · exact Or.inl hx
    · rw [if_neg ht] at hx
      split at hx
      · rcases mem_mergeEdge_elim hx with h | h
        · exact Or.inl h
        · subst h
          exact Or.inr ⟨d, rfl, rfl, by simpa using ht⟩
      · exact Or.inl hx

/-- Every `HAS_DOCUMENT` edge in a state reached by a trace comes from the
start state or from a document write with a truthy encounter id. -/
theorem hasDocument_applyOps (ops : List GraphOp) (g : GraphState) :
    ∀ x ∈ (applyOps g ops).hasDocument,
      x ∈ g.hasDocument ∨ docWrittenWithEncounter ops x.2 = true := by
  induction ops generalizing g with
  | nil => exact fun x hx => Or.inl hx
  | cons op rest ih =>
    intro x hx
    have hx' : x ∈ (applyOps (applyOp g op) rest).hasDocument := by
      simpa [applyOps] using hx
    rcases ih (applyOp g op) x hx' with h | h
    · rcases hasDocument_applyOp g op x h with h' | ⟨d, rfl, hid, htt⟩
      · exact Or.inl h'
      · right
        rw [docWrittenWithEncounter_cons, Bool.or_eq_true]
        left
        simp [hid, htt]
    · right
      rw [docWrittenWithEncounter_cons, Bool.or_eq_true]
      right
      exact h

/-- Every `HAS_DOCUMENT_DIRECT` edge in a state reached by a trace comes
from the start state or from a document write without a truthy encounter
id. -/
theorem hasDocumentDirect_applyOps (ops : List GraphOp) (g : GraphState) :
    ∀ x ∈ (applyOps g ops).hasDocumentDirect,
      x ∈ g.hasDocumentDirect ∨ docWrittenWithoutEncounter ops x.2 = true := by
  induction ops generalizing g with
  | nil => exact fun x hx => Or.inl hx
  | cons op rest ih =>
    intro x hx
    have hx' : x ∈ (applyOps (applyOp g op) rest).hasDocumentDirect := by
      simpa [applyOps] using hx
    rcases ih (applyOp g op) x hx' with h | h
    · rcases hasDocumentDirect_applyOp g op x h with h' | ⟨d, rfl, hid, htt⟩
      · exact Or.inl h'
      · right
        rw [docWrittenWithoutEncounter_cons, Bool.or_eq_true]
        left
        simp [hid, htt]
    · right
      rw [docWrittenWithoutEncounter_cons, Bool.or_eq_true]
      right
      exact h

/-! ### Field equations for the write operations -/

/-- `add_encounter` upserts the encounter node table. -/
theorem addEncounter_encounters (g : GraphState) (e : Encounter) :
    (addEncounter g e).encounters =
      upsert e.encounter_id ⟨e.encounter_type, e.start_time, e.end_time⟩ g.encounters := by
  unfold addEncounter
  dsimp only
  split <;> rfl

/-- `add_observation` upserts the observation node table. -/
theorem addObservation_observations (g : GraphState) (o : Observation) :
    (addObservation g o).observations =
      upsert o.observation_id
        ⟨o.category.value, o.name, o.value, o.value_numeric, o.unit, o.observed_at⟩
        g.observations := by
  unfold addObservation
  dsimp only
  split_ifs <;> rfl

/-- `add_medication` upserts the medication node table. -/
theorem addMedication_medications (g : GraphState) (m : Medication) :
    (addMedication g m).medications =
      upsert m.medication_id
        ⟨m.name, m.indication, m.prescriber, m.status.value, m.start_date, m.end_date⟩
        g.medications := by
  unfold addMedication
  dsimp only
  split_ifs <;> rfl

/-- `add_document` upserts the document node table. -/
theorem addDocument_documents (g : GraphState) (d : Document) :
    (addDocument g d).documents =
      upsert d.document_id ⟨d.doc_type.value, d.title, d.extracted_at⟩ g.documents := by
  unfold addDocument
  dsimp only
  split_ifs <;> rfl

/-! ### Lemmas about `get_medication_pairs` -/

/-- Lexicographic character-list comparison is irreflexive. -/
theorem charListLt_self (l : List Char) : charListLt l l = false := by
  induction l with
  | nil => rfl
  | cons a as ih => simp [charListLt, ih, lt_irrefl]

/-- `strLt` implies inequality. -/
theorem strLt_ne {a b : String} (h : strLt a b = true) : a ≠ b := by
  intro heq
  subst heq
  rw [strLt, charListLt_self] at h
  exact absurd h (by simp)

/-- Membership in `get_medication_pairs`: exactly the ordered pairs of the
patient's linked medications whose ids satisfy the string ordering. -/
theorem mem_getMedicationPairs_iff (g : GraphState) (pid : String) (pr : MedicationPair) :
    pr ∈ getMedicationPairs g pid ↔
      ((pr.medication_a_id, pr.medication_a_name) ∈ patientMedications g pid ∧
       (pr.medication_b_id, pr.medication_b_name) ∈ patientMedications g pid ∧
       strLt pr.medication_a_id pr.medication_b_id = true) := by
  unfold getMedicationPairs
  dsimp only
  rw [List.mem_flatMap]
  constructor
  · rintro ⟨m1, hm1, hin⟩
    rw [List.mem_filterMap] at hin
    rcases hin with ⟨m2, hm2, hf⟩
    split at hf
    · next hlt =>
      rcases Option.some.inj hf with rfl
      exact ⟨hm1, hm2, hlt⟩
    · exact absurd hf (by simp)
  · rintro ⟨ha, hb, hlt⟩
    refine ⟨(pr.medication_a_id, pr.medication_a_name), ha, ?_⟩
    rw [List.mem_filterMap]
    refine ⟨(pr.medication_b_id, pr.medication_b_name), hb, ?_⟩
    rw [if_pos hlt]

/-- A row produced by the `TAKES_MEDICATION` match has the patient id of
the match and the medication id of its edge. -/
theorem medsOf_entry_eq_some {meds : List (String × MedicationNode)} {pid : String}
    {e : (String × String) × TakesMedicationRel} {y : String × String}
    (h : (if e.1.1 = pid then (lookupKey e.1.2 meds).map fun n => (e.1.2, n.name)
          else none) = some y) :
    e.1.1 = pid ∧ y.1 = e.1.2 := by
  split at h
  · next hpid =>
    rcases Option.map_eq_some'.mp h with ⟨n, _, rfl⟩
    exact ⟨hpid, rfl⟩
  · exact absurd h (by simp)

/-- Distinct `TAKES_MEDICATION` edge keys yield distinct medication ids in
the patient's medication match list. -/
theorem nodup_fst_medsOf (meds : List (String × MedicationNode)) (pid : String) :
    ∀ edges : List ((String × String) × TakesMedicationRel),
      (edges.map Prod.fst).Nodup →
      ((edges.filterMap fun e =>
          if e.1.1 = pid then (lookupKey e.1.2 meds).map fun n => (e.1.2, n.name)
          else none).map Prod.fst).Nodup := by
  intro edges h
  induction edges with
  | nil => simp
  | cons e rest ih =>
    simp only [List.map_cons, List.nodup_cons] at h
    obtain ⟨hnm, hrest⟩ := h
    rw [List.filterMap_cons]
    split
    · exact ih hrest
    · next y hy =>
      obtain ⟨hpid, hy1⟩ := medsOf_entry_eq_some hy
      simp only [List.map_cons, List.nodup_cons]
      refine ⟨?_, ih hrest⟩
      intro hmem
      rw [List.mem_map] at hmem
      rcases hmem with ⟨z, hz, hz1⟩
      rw [List.mem_filterMap] at hz
      rcases hz with ⟨e', he', hf'⟩
      obtain ⟨hpid', hz1'⟩ := medsOf_entry_eq_some hf'
      apply hnm
      have he1 : e'.1 = e.1 := by
        have h1 : e'.1.2 = e.1.2 := by rw [← hz1', hz1, hy1]
        rcases hp : e.1 with ⟨a, b⟩
        rcases hp' : e'.1 with ⟨a', b'⟩
        rw [hp] at hpid h1
        rw [hp'] at hpid' h1
        simp_all
      rw [← he1]
      exact List.mem_map_of_mem Prod.fst he'

/-- With distinct `TAKES_MEDICATION` edge keys, the patient's medication
match list has distinct medication ids. -/
theorem nodup_fst_patientMedications (g : GraphState) (pid : String)
    (h : (g.takesMedication.map Prod.fst).Nodup) :
    ((patientMedications g pid).map Prod.fst).Nodup := by
  unfold patientMedications
  split
  · exact nodup_fst_medsOf g.medications pid g.takesMedication h
  · simp


/-- Every pair row inherits its `medication_a_id` from the outer match. -/
theorem mem_pairsFor {meds : List (String × String)} {m1 : String × String}
    {x : MedicationPair}
    (hx : x ∈ (meds.filterMap fun m2 =>
      if strLt m1.1 m2.1 then some (MedicationPair.mk m1.1 m1.2 m2.1 m2.2) else none)) :
    x.medication_a_id = m1.1 := by
  rw [List.mem_filterMap] at hx
  rcases hx with ⟨m2, _, hf⟩
  split at hf
  · rcases Option.some.inj hf with rfl
    rfl
  · exact absurd hf (by simp)

/-- With distinct `TAKES_MEDICATION` edge keys, no pair row is reported
twice. -/
theorem nodup_getMedicationPairs (g : GraphState) (pid : String)
    (h : (g.takesMedication.map Prod.fst).Nodup) :
    (getMedicationPairs g pid).Nodup := by
  have hmf : ((patientMedications g pid).map Prod.fst).Nodup :=
    nodup_fst_patientMedications g pid h
  have hnd : (patientMedications g pid).Nodup := hmf.of_map
  unfold getMedicationPairs
  dsimp only
  rw [List.nodup_flatMap]
  constructor
  · intro m1 _
    refine List.Nodup.filterMap ?_ hnd
    intro a a' b hba hba'
    rw [Option.mem_def] at hba hba'
    split at hba
    · split at hba'
      · have heq := (Option.some.inj hba).trans (Option.some.inj hba').symm
        rcases a with ⟨a1, a2⟩
        rcases a' with ⟨a1', a2'⟩
        simp only [MedicationPair.mk.injEq] at heq
        obtain ⟨-, -, h3, h4⟩ := heq
        simp_all
      · exact absurd hba' (by simp)
    · exact absurd hba (by simp)
  · have hmf' : List.Pairwise (· ≠ ·) ((patientMedications g pid).map Prod.fst) := hmf
    rw [List.pairwise_map] at hmf'
    refine hmf'.imp ?_
    intro a b hne
    intro x hx1 hx2
    have e1 := mem_pairsFor hx1
    have e2 := mem_pairsFor hx2
    exact hne (by rw [← e1, ← e2])


/-! ### Cache lemmas -/

/-- `find?` on a list whose prefix has no match finds the appended element. -/
theorem find?_nokey_append {α : Type} (q : α → Bool) (l : List α) (x : α)
    (hl : ∀ e ∈ l, q e = false) (hx : q x = true) :
    (l ++ [x]).find? q = some x := by
  induction l with
  | nil => simp [List.find?, hx]
  | cons e rest ih =>
    have he : q e = false := hl e (by simp)
    simp only [List.cons_append, List.find?]
    rw [he]
    exact ih fun e' he' => hl e' (by simp [he'])

/-- `find?` after removing all matches and appending a match finds the
appended element (the shape of every upsert in the cache layer). -/
theorem find?_filter_not_append {α : Type} (q : α → Bool) (l : List α) (x : α)
    (hx : q x = true) :
    ((l.filter fun e => !(q e)) ++ [x]).find? q = some x := by
  refine find?_nokey_append q _ x ?_ hx
  intro e he
  rw [List.mem_filter] at he
  simpa using he.2

/-- After removing all matches, no match remains. -/
theorem any_filter_not {α : Type} (q : α → Bool) (l : List α) :
    (l.filter fun e => !(q e)).any q = false := by
  rw [List.any_eq_false]
  intro e he
  rw [List.mem_filter] at he
  simp at he
  simp [he.2]

/-- After `LruCache.set`, looking the key up finds the freshly written
entry (the capacity must be at least one, as the constructor guarantees,
or the entry could be evicted immediately). -/
theorem lruSet_find (c : LruCache) (now : Time) (key : String) (value : Val)
    (hcap : 1 ≤ c.capacity) :
    (c.set now key value).data.find? (fun e => decide (e.1 = key)) =
      some (key, (if c.ttl_seconds > 0 then some (now + c.ttl_seconds) else none), value) := by
  unfold LruCache.set
  dsimp only
  set q : String × Option Time × Val → Bool := fun e => decide (e.1 = key) with hq
  set ea : Option Time := if c.ttl_seconds > 0 then some (now + c.ttl_seconds) else none with hea
  have hx : q (key, ea, value) = true := by simp [hq]
  split
  · next hlen =>
    rcases hf : c.data.filter (fun e => !(q e)) with _ | ⟨f0, ftail⟩
    · rw [hf] at hlen
      simp at hlen
      omega
    · simp only [List.cons_append, List.tail_cons]
      refine find?_nokey_append q _ _ ?_ hx
      intro e he
      have hmem : e ∈ c.data.filter (fun e => !(q e)) := by
        rw [hf]
        exact List.mem_cons_of_mem _ (by simpa using he)
      rw [List.mem_filter] at hmem
      simpa using hmem.2
  · exact find?_filter_not_append q c.data _ hx

/-- An L1 entry is retrievable before its TTL elapses (or forever when the
TTL is not positive). -/
theorem lruSet_get_live (c : LruCache) (now0 now1 : Time) (key : String) (value : Val)
    (hcap : 1 ≤ c.capacity)
    (hlive : c.ttl_seconds ≤ 0 ∨ now1 < now0 + c.ttl_seconds) :
    ((c.set now0 key value).get now1 key).1 = value := by
  have hfind := lruSet_find c now0 key value hcap
  by_cases ht : c.ttl_seconds > 0
  · rw [if_pos ht] at hfind
    unfold LruCache.get
    rw [hfind]
    dsimp only
    rw [if_neg (show ¬(now0 + c.ttl_seconds ≤ now1) by
      rcases hlive with h | h
      · exact absurd ht h.not_lt
      · exact not_le.mpr h)]
  · rw [if_neg ht] at hfind
    unfold LruCache.get
    rw [hfind]

/-- An expired L1 entry yields `None` and is popped on access. -/
theorem lruSet_get_expired (c : LruCache) (now0 now1 : Time) (key : String) (value : Val)
    (hcap : 1 ≤ c.capacity) (ht : 0 < c.ttl_seconds)
    (hexp : now0 + c.ttl_seconds ≤ now1) :
    ((c.set now0 key value).get now1 key).1 = Val.null ∧
    ((c.set now0 key value).get now1 key).2.containsKey key = false := by
  have hfind := lruSet_find c now0 key value hcap
  rw [if_pos ht] at hfind
  unfold LruCache.get
  rw [hfind]
  dsimp only
  rw [if_pos hexp]
  exact ⟨rfl, any_filter_not _ _⟩

/-- After an L1 `set`, the key is present. -/
theorem lruSet_containsKey (c : LruCache) (now : Time) (key : String) (value : Val)
    (hcap : 1 ≤ c.capacity) :
    (c.set now key value).containsKey key = true := by
  have hfind := lruSet_find c now key value hcap
  have hmem := List.mem_of_find?_eq_some hfind
  unfold LruCache.containsKey
  rw [List.any_eq_true]
  exact ⟨_, hmem, by simp⟩

/-- After `SqliteCache.set`, looking the key up finds the fresh row. -/
theorem sqliteSet_find (c : SqliteCache) (now : Time) (key : String) (value : Val) :
    (c.set now key value).rows.find? (fun r => decide (r.1 = key)) =
      some (key, .ok value, now, c.ttl_seconds) := by
  unfold SqliteCache.set
  dsimp only
  exact find?_filter_not_append _ _ _ (by simp)

/-- An L2 row is retrievable before its TTL elapses (or forever when the
TTL is not positive), and a live read leaves the table unchanged. -/
theorem sqliteSet_get_live (c : SqliteCache) (now0 now1 : Time) (key : String) (value : Val)
    (hlive : c.ttl_seconds ≤ 0 ∨ now1 < now0 + c.ttl_seconds) :
    ((c.set now0 key value).get now1 key).1 = value ∧
    ((c.set now0 key value).get now1 key).2 = c.set now0 key value := by
  unfold SqliteCache.get
  rw [sqliteSet_find]
  dsimp only
  rw [if_neg (show ¬(c.ttl_seconds > 0 ∧ now0 + c.ttl_seconds ≤ now1) by
    rintro ⟨h1, h2⟩
    rcases hlive with h | h
    · exact absurd h1 h.not_lt
    · exact absurd h2 (not_le.mpr h))]
  exact ⟨rfl, rfl⟩

/-- An expired L2 row yields `None` and is deleted on access. -/
theorem sqliteSet_get_expired (c : SqliteCache) (now0 now1 : Time) (key : String) (value : Val)
    (ht : 0 < c.ttl_seconds) (hexp : now0 + c.ttl_seconds ≤ now1) :
    ((c.set now0 key value).get now1 key).1 = Val.null ∧
    ((c.set now0 key value).get now1 key).2.containsKey key = false := by
  unfold SqliteCache.get
  rw [sqliteSet_find]
  dsimp only
  rw [if_pos ⟨ht, hexp⟩]
  refine ⟨rfl, ?_⟩
  unfold SqliteCache.containsKey
  dsimp only
  exact any_filter_not _ _

/-- A cleared composite cache misses on every key and stays cleared. -/
theorem multilevel_clear_get (c : MultiLevelCache) (now : Time) (key : String) :
    (MultiLevelCache.clear c).get now key = (Val.null, MultiLevelCache.clear c) := by
  rcases c with ⟨l1, _ | s2⟩
  · simp [MultiLevelCache.clear, MultiLevelCache.get, LruCache.clear, LruCache.get]
  · simp [MultiLevelCache.clear, MultiLevelCache.get, LruCache.clear, LruCache.get,
      SqliteCache.clear, SqliteCache.get]

/-- When every L1 entry under a key stores Python `None`, the L1 `get`
returns `None`. -/
theorem lru_get_null_of_stored_null (l : LruCache) (now : Time) (key : String)
    (h : ∀ e ∈ l.data, e.1 = key → e.2.2 = Val.null) :
    (l.get now key).1 = Val.null := by
  unfold LruCache.get
  rcases hf : l.data.find? (fun e => decide (e.1 = key)) with _ | ⟨k, ea, v⟩
  · rw [hf]
  · rw [hf]
    have hmem := List.mem_of_find?_eq_some hf
    have hkey : k = key := by simpa using List.find?_some hf
    have hv : v = Val.null := h (k, ea, v) hmem hkey
    subst hv
    rcases ea with _ | t
    · rfl
    · dsimp only
      split <;> rfl

/-- When every L2 row under a key stores JSON null or an undecodable
payload, the L2 `get` returns `None`. -/
theorem sqlite_get_null_of_stored_null (s : SqliteCache) (now : Time) (key : String)
    (h : ∀ r ∈ s.rows, r.1 = key →
      r.2.1 = Payload.ok Val.null ∨ r.2.1 = Payload.bad) :
    (s.get now key).1 = Val.null := by
  unfold SqliteCache.get
  rcases hf : s.rows.find? (fun r => decide (r.1 = key)) with _ | ⟨k, payload, u, t⟩
  · rw [hf]
  · rw [hf]
    have hmem := List.mem_of_find?_eq_some hf
    have hkey : k = key := by simpa using List.find?_some hf
    have hp := h (k, payload, u, t) hmem hkey
    dsimp only
    split
    · rfl
    · rcases hp with hp | hp <;> simp at hp <;> subst hp <;> rfl


/-! ### Claims C1 to C3 -/

/-- Claim C1, counterexample: the reachable-state exclusivity in the claim
is false.  Writing document "d1" first with encounter id "e1" and then
again without one produces a reachable graph state in which the document
has a `HAS_DOCUMENT` edge and a `HAS_DOCUMENT_DIRECT` edge at the same
time. -/
theorem document_both_edge_kinds_reachable :
    ("e1", "d1") ∈ (applyOps GraphState.empty sampleMixedDocumentOps).hasDocument ∧
    ("p1", "d1") ∈ (applyOps GraphState.empty sampleMixedDocumentOps).hasDocumentDirect := by
  decide

/-- Claim C1 (amended): an `add_document` call with a truthy encounter id
creates no `HAS_DOCUMENT_DIRECT` edge and — when the referenced encounter
node exists — creates the `HAS_DOCUMENT` edge from that encounter; a call
without one creates no `HAS_DOCUMENT` edge and — when the patient node
exists — creates the `HAS_DOCUMENT_DIRECT` edge from the patient; and in
every state reachable from the empty graph, a document id that is not
written both with and without an encounter id never carries both kinds of
incoming edge. -/
theorem document_edge_exclusivity :
    (∀ (g : GraphState) (d : Document) (eid : String),
      d.encounter_id = some eid → eid ≠ "" →
      (addDocument g d).hasDocumentDirect = g.hasDocumentDirect ∧
      (hasKey eid g.encounters = true →
        (eid, d.document_id) ∈ (addDocument g d).hasDocument)) ∧
    (∀ (g : GraphState) (d : Document), pyTruthy d.encounter_id = false →
      (addDocument g d).hasDocument = g.hasDocument ∧
      (hasKey d.patient_id g.patients = true →
        (d.patient_id, d.document_id) ∈ (addDocument g d).hasDocumentDirect)) ∧
    (∀ (ops : List GraphOp) (did : String),
      ¬(docWrittenWithEncounter ops did = true ∧ docWrittenWithoutEncounter ops did = true) →
      ∀ eid pid, ¬((eid, did) ∈ (applyOps GraphState.empty ops).hasDocument ∧
        (pid, did) ∈ (applyOps GraphState.empty ops).hasDocumentDirect)) := by
  refine ⟨?_, ?_, ?_⟩
  · intro g d eid henc heid
    have ht : pyTruthy d.encounter_id = true := by
      rw [henc]
      simpa [pyTruthy] using heid
    have hgetd : d.encounter_id.getD "" = eid := by rw [henc]; rfl
    unfold addDocument
    dsimp only
    rw [if_pos ht, hgetd]
    constructor
    · split <;> rfl
    · intro hk
      rw [if_pos (by simp [hk, hasKey_upsert_self])]
      exact mem_mergeEdge_self _ _
  · intro g d ht
    have ht' : ¬(pyTruthy d.encounter_id = true) := by simp [ht]
    unfold addDocument
    dsimp only
    rw [if_neg ht']
    constructor
    · split <;> rfl
    · intro hk
      rw [if_pos (by simp [hk, hasKey_upsert_self])]
      exact mem_mergeEdge_self _ _
  · intro ops did hmix eid pid ⟨hd, hdd⟩
    have h1 := hasDocument_applyOps ops GraphState.empty (eid, did) hd
    have h2 := hasDocumentDirect_applyOps ops GraphState.empty (pid, did) hdd
    simp [GraphState.empty] at h1 h2
    exact hmix ⟨h1, h2⟩

/-- Claim C1, witness: the amended theorem applied to concrete documents
against the patient-and-encounter graph and to a concrete one-operation
trace. -/
theorem document_edge_exclusivity_witness :
    (addDocument samplePatientEncounterGraph sampleDocumentWithEncounter).hasDocumentDirect =
      samplePatientEncounterGraph.hasDocumentDirect ∧
    ("e1", "d1") ∈ (addDocument samplePatientEncounterGraph sampleDocumentWithEncounter).hasDocument ∧
    (addDocument samplePatientEncounterGraph sampleDocument).hasDocument =
      samplePatientEncounterGraph.hasDocument ∧
    ("p1", "d1") ∈ (addDocument samplePatientEncounterGraph sampleDocument).hasDocumentDirect ∧
    ¬(("e9", "d9") ∈ (applyOps GraphState.empty [GraphOp.patient samplePatient]).hasDocument ∧
      ("p9", "d9") ∈ (applyOps GraphState.empty [GraphOp.patient samplePatient]).hasDocumentDirect) :=
  ⟨(document_edge_exclusivity.1 samplePatientEncounterGraph sampleDocumentWithEncounter "e1"
      (by decide) (by decide)).1,
   (document_edge_exclusivity.1 samplePatientEncounterGraph sampleDocumentWithEncounter "e1"
      (by decide) (by decide)).2 (by decide),
   (document_edge_exclusivity.2.1 samplePatientEncounterGraph sampleDocument (by decide)).1,
   (document_edge_exclusivity.2.1 samplePatientEncounterGraph sampleDocument (by decide)).2
      (by decide),
   document_edge_exclusivity.2.2 [GraphOp.patient samplePatient] "d9" (by decide) "e9" "p9"⟩

/-- Claim C2: on any well-formed graph state, each of the five add
operations applied twice with the identical entity equals applying it
once; afterwards exactly one node with that id exists and the state stays
well-formed (no duplicate node or relationship). -/
theorem add_upsert_idempotent (g : GraphState) (hw : g.wf) :
    (∀ p : PatientProfile,
      addPatient (addPatient g p) p = addPatient g p ∧
      countKey p.patient_id (addPatient g p).patients = 1 ∧ (addPatient g p).wf) ∧
    (∀ e : Encounter,
      addEncounter (addEncounter g e) e = addEncounter g e ∧
      countKey e.encounter_id (addEncounter g e).encounters = 1 ∧ (addEncounter g e).wf) ∧
    (∀ o : Observation,
      addObservation (addObservation g o) o = addObservation g o ∧
      countKey o.observation_id (addObservation g o).observations = 1 ∧ (addObservation g o).wf) ∧
    (∀ m : Medication,
      addMedication (addMedication g m) m = addMedication g m ∧
      countKey m.medication_id (addMedication g m).medications = 1 ∧ (addMedication g m).wf) ∧
    (∀ d : Document,
      addDocument (addDocument g d) d = addDocument g d ∧
      countKey d.document_id (addDocument g d).documents = 1 ∧ (addDocument g d).wf) := by
  refine ⟨fun p => ⟨addPatient_idem g p, ?_, wf_addPatient g p hw⟩,
    fun e => ⟨addEncounter_idem g e, ?_, wf_addEncounter g e hw⟩,
    fun o => ⟨addObservation_idem g o, ?_, wf_addObservation g o hw⟩,
    fun m => ⟨addMedication_idem g m, ?_, wf_addMedication g m hw⟩,
    fun d => ⟨addDocument_idem g d, ?_, wf_addDocument g d hw⟩⟩
  · exact countKey_upsert _ _ _ hw.1
  · rw [addEncounter_encounters]
    exact countKey_upsert _ _ _ hw.2.1
  · rw [addObservation_observations]
    exact countKey_upsert _ _ _ hw.2.2.1
  · rw [addMedication_medications]
    exact countKey_upsert _ _ _ hw.2.2.2.1
  · rw [addDocument_documents]
    exact countKey_upsert _ _ _ hw.2.2.2.2.1

/-- Claim C2, witness: idempotence and single-node count on the empty
graph with concrete entities. -/
theorem add_upsert_idempotent_witness :
    addPatient (addPatient GraphState.empty samplePatient) samplePatient =
      addPatient GraphState.empty samplePatient ∧
    countKey "p1" (addPatient GraphState.empty samplePatient).patients = 1 ∧
    addMedication (addMedication GraphState.empty sampleMedication1) sampleMedication1 =
      addMedication GraphState.empty sampleMedication1 ∧
    (addMedication GraphState.empty sampleMedication1).wf :=
  ⟨((add_upsert_idempotent GraphState.empty (by decide)).1 samplePatient).1,
   ((add_upsert_idempotent GraphState.empty (by decide)).1 samplePatient).2.1,
   ((add_upsert_idempotent GraphState.empty (by decide)).2.2.2.1 sampleMedication1).1,
   ((add_upsert_idempotent GraphState.empty (by decide)).2.2.2.1 sampleMedication1).2.2⟩

/-- Claim C3: `get_patient_timeline` is sorted by event time descending, is
the `limit`-truncation of the union of the three event kinds (a
permutation of the whole union whenever `limit` is large enough), and on
the concrete scenario with a document extracted at 200, an encounter at
100 and a medication started at 50 it returns
[document, encounter, medication]. -/
theorem patient_timeline_spec :
    (∀ (g : GraphState) (pid : String) (limit : Nat),
      List.Sorted eventDescLe (getPatientTimeline g pid limit)) ∧
    (∀ (g : GraphState) (pid : String) (limit : Nat),
      (getPatientTimeline g pid limit).length = min limit (timelineEvents g pid).length) ∧
    (∀ (g : GraphState) (pid : String) (limit : Nat),
      (timelineEvents g pid).length ≤ limit →
      (getPatientTimeline g pid limit).Perm (timelineEvents g pid)) ∧
    getPatientTimeline sampleTimelineGraph "p1" 200 =
      [⟨"document", "d1", some 200⟩, ⟨"encounter", "e1", some 100⟩,
       ⟨"medication", "m1", some 50⟩] := by
  refine ⟨?_, ?_, ?_, ?_⟩
  · intro g pid limit
    have hs := List.sorted_insertionSort eventDescLe (timelineEvents g pid)
    exact List.Pairwise.sublist (List.take_sublist _ _) hs
  · intro g pid limit
    simp [getPatientTimeline, List.length_take, List.length_insertionSort]
  · intro g pid limit hlen
    unfold getPatientTimeline
    rw [List.take_of_length_le (by rw [List.length_insertionSort]; exact hlen)]
    exact List.perm_insertionSort _ _
  · decide

/-- Claim C3, witness: the permutation conjunct applied to the concrete
timeline graph with a large enough limit. -/
theorem patient_timeline_spec_witness :
    (timelineEvents sampleTimelineGraph "p1").length ≤ 200 ∧
    (getPatientTimeline sampleTimelineGraph "p1" 200).Perm
      (timelineEvents sampleTimelineGraph "p1") :=
  ⟨by decide, patient_timeline_spec.2.2.1 sampleTimelineGraph "p1" 200 (by decide)⟩

/-! ### Claims C4 to C10 -/


/-- Claim C4: `get_medication_pairs` returns exactly the pairs of distinct
medications linked to the patient by `TAKES_MEDICATION` whose ids satisfy
the string ordering `medication_a_id < medication_b_id`: membership is
characterised by that condition, no self-pair appears, no pair is reported
twice (given distinct edge keys, which the engines' `MERGE` guarantees),
and for a patient taking "m1" and "m2" exactly the single pair
("m1", "m2") is returned. -/
theorem medication_pairs_spec :
    (∀ (g : GraphState) (pid : String) (pr : MedicationPair),
      pr ∈ getMedicationPairs g pid ↔
        ((pr.medication_a_id, pr.medication_a_name) ∈ patientMedications g pid ∧
         (pr.medication_b_id, pr.medication_b_name) ∈ patientMedications g pid ∧
         strLt pr.medication_a_id pr.medication_b_id = true)) ∧
    (∀ (g : GraphState) (pid : String) (pr : MedicationPair),
      pr ∈ getMedicationPairs g pid → pr.medication_a_id ≠ pr.medication_b_id) ∧
    (∀ (g : GraphState) (pid : String),
      (g.takesMedication.map Prod.fst).Nodup → (getMedicationPairs g pid).Nodup) ∧
    getMedicationPairs samplePairsGraph "p1" =
      [{ medication_a_id := "m1", medication_a_name := "metformin",
         medication_b_id := "m2", medication_b_name := "aspirin" }] := by
  refine ⟨mem_getMedicationPairs_iff, ?_, nodup_getMedicationPairs, ?_⟩
  · intro g pid pr hpr
    exact strLt_ne ((mem_getMedicationPairs_iff g pid pr).mp hpr).2.2
  · decide

/-- Claim C4, witness: the no-duplicates conjunct applied to the concrete
two-medication graph. -/
theorem medication_pairs_spec_witness :
    (samplePairsGraph.takesMedication.map Prod.fst).Nodup ∧
    (getMedicationPairs samplePairsGraph "p1").Nodup :=
  ⟨by decide, medication_pairs_spec.2.2.1 samplePairsGraph "p1" (by decide)⟩

/-- Claim C5: `Mem0Backend.add` clears the entire tiered cache: whenever
the backend still carries a cache after the write, that cache has an empty
L1 map and an empty L2 table, and every subsequent composite `get` on any
key at any time returns `None` and leaves the cache in the same cleared
state (so no result cached before the write can ever be returned). -/
theorem mem0_add_clears_cache {M : Type} (memAdd : M → M) (b : Mem0Backend M)
    (c : MultiLevelCache) (h : (Mem0Backend.add memAdd b).cache = some c) :
    c.l1.data = [] ∧ (∀ s2, c.l2 = some s2 → s2.rows = []) ∧
    (∀ (now : Time) (key : String), c.get now key = (Val.null, c)) := by
  rcases b with ⟨mem, _ | c0⟩
  · simp [Mem0Backend.add] at h
  · simp [Mem0Backend.add] at h
    subst h
    refine ⟨rfl, ?_, fun now key => multilevel_clear_get c0 now key⟩
    intro s2 hs2
    rcases c0 with ⟨l1, _ | s0⟩
    · simp [MultiLevelCache.clear] at hs2
    · simp [MultiLevelCache.clear] at hs2
      rw [← hs2]
      rfl

/-- Claim C5, witness: the theorem applied to a concrete backend holding a
populated cache. -/
theorem mem0_add_clears_cache_witness :
    (MultiLevelCache.clear sampleLoadedCache).l1.data = [] ∧
    (MultiLevelCache.clear sampleLoadedCache).get 1 "k" =
      (Val.null, MultiLevelCache.clear sampleLoadedCache) := by
  have hh := mem0_add_clears_cache (fun n : Nat => n + 1) ⟨0, some sampleLoadedCache⟩
    (MultiLevelCache.clear sampleLoadedCache) rfl
  exact ⟨hh.1, hh.2.2 1 "k"⟩



/-- Claim C6: the composite `get` consults L1 first and returns a non-null
L1 value directly; on an L1 miss with an L2 hit it promotes the L2 value
into L1 before returning it; `set` writes through to both layers
unconditionally; and after a composite `set` followed by clearing only L1,
the next composite `get` still returns the value (while it is live in L2)
and L1 contains the key again afterwards. -/
theorem multilevel_cache_spec :
    (∀ (c : MultiLevelCache) (now : Time) (key : String),
      (c.l1.get now key).1 ≠ Val.null →
      c.get now key = ((c.l1.get now key).1, { c with l1 := (c.l1.get now key).2 })) ∧
    (∀ (c : MultiLevelCache) (s2 : SqliteCache) (now : Time) (key : String),
      c.l2 = some s2 → (c.l1.get now key).1 = Val.null →
      (s2.get now key).1 ≠ Val.null →
      c.get now key = ((s2.get now key).1,
        { l1 := ((c.l1.get now key).2).set now key (s2.get now key).1,
          l2 := some (s2.get now key).2 })) ∧
    (∀ (c : MultiLevelCache) (now : Time) (key : String) (value : Val),
      (c.set now key value).l1 = c.l1.set now key value ∧
      (c.set now key value).l2 = c.l2.map fun s2 => s2.set now key value) ∧
    (∀ (c : MultiLevelCache) (s2 : SqliteCache) (key : String) (value : Val)
        (now1 now2 : Time),
      c.l2 = some s2 → value ≠ Val.null → 1 ≤ c.l1.capacity →
      (s2.ttl_seconds ≤ 0 ∨ now2 < now1 + s2.ttl_seconds) →
      ((({ l1 := (c.set now1 key value).l1.clear, l2 := (c.set now1 key value).l2 } :
          MultiLevelCache).get now2 key).1 = value ∧
       (({ l1 := (c.set now1 key value).l1.clear, l2 := (c.set now1 key value).l2 } :
          MultiLevelCache).get now2 key).2.l1.containsKey key = true)) := by
  refine ⟨?_, ?_, ?_, ?_⟩
  · intro c now key h
    unfold MultiLevelCache.get
    dsimp only
    rw [if_pos h]
  · intro c s2 now key hl2 h1 h2
    unfold MultiLevelCache.get
    dsimp only
    rw [if_neg (fun hn => hn h1), hl2]
    dsimp only
    rw [if_pos h2]
  · exact fun c now key value => ⟨rfl, rfl⟩
  · intro c s2 key value now1 now2 hl2 hv hcap hlive
    have hset2 : (c.set now1 key value).l2 = some (s2.set now1 key value) := by
      simp [MultiLevelCache.set, hl2]
    have hr1 : ((c.set now1 key value).l1.clear.get now2 key) =
        (Val.null, (c.set now1 key value).l1.clear) := rfl
    obtain ⟨hv2, hs2v⟩ := sqliteSet_get_live s2 now1 now2 key value hlive
    unfold MultiLevelCache.get
    dsimp only
    rw [hr1]
    dsimp only
    rw [if_neg (by simp), hset2]
    dsimp only
    rw [hv2, if_pos hv]
    dsimp only
    constructor
    · rfl
    · have hcap' : 1 ≤ (c.set now1 key value).l1.clear.capacity := hcap
      exact lruSet_containsKey _ now2 key value hcap'


/-- Claim C7: `LruCache.set` leaves the written entry in the
most-recently-used (back) position, never lets the size exceed the
capacity, evicts exactly the least-recently-used (front) entry when a new
key is inserted into a full cache, and on the concrete capacity-2 scenario
inserting "a", "b", "c" evicts "a": `get "a"` returns nothing while
`get "b"` and `get "c"` return their values. -/
theorem lru_eviction_spec :
    (∀ (c : LruCache) (now : Time) (key : String) (value : Val), 1 ≤ c.capacity →
      (c.set now key value).data.getLast? =
        some (key, (if c.ttl_seconds > 0 then some (now + c.ttl_seconds) else none), value)) ∧
    (∀ (c : LruCache) (now : Time) (key : String) (value : Val),
      (c.data.length : Int) ≤ c.capacity →
      ((c.set now key value).data.length : Int) ≤ c.capacity) ∧
    (∀ (c : LruCache) (now : Time) (key : String) (value : Val),
      c.containsKey key = false → (c.data.length : Int) = c.capacity → 1 ≤ c.capacity →
      (c.set now key value).data = c.data.tail ++
        [(key, (if c.ttl_seconds > 0 then some (now + c.ttl_seconds) else none), value)]) ∧
    ((sampleLru3.get 3 "a").1 = Val.null ∧
     ((sampleLru3.get 3 "a").2.get 3 "b").1 = Val.str "vb" ∧
     (((sampleLru3.get 3 "a").2.get 3 "b").2.get 3 "c").1 = Val.str "vc") := by
  refine ⟨?_, ?_, ?_, by decide, by decide, by decide⟩
  · intro c now key value hcap
    unfold LruCache.set
    dsimp only
    set ea : Option Time := if c.ttl_seconds > 0 then some (now + c.ttl_seconds) else none
    split
    · next hlen =>
      rcases hf : c.data.filter (fun e => !decide (e.1 = key)) with _ | ⟨f0, ftail⟩
      · rw [hf] at hlen
        simp only [List.nil_append, List.length_cons, List.length_nil] at hlen
        push_cast at hlen
        omega
      · rw [hf]
        simp only [List.cons_append, List.tail_cons]
        exact List.getLast?_concat _
    · exact List.getLast?_concat _
  · intro c now key value hlen
    have hfl : (c.data.filter fun e => !decide (e.1 = key)).length ≤ c.data.length :=
      List.length_filter_le _ _
    unfold LruCache.set
    dsimp only
    set ea : Option Time := if c.ttl_seconds > 0 then some (now + c.ttl_seconds) else none
    split
    · next hgt =>
      rw [List.length_append, List.length_cons, List.length_nil] at hgt
      rw [List.length_tail, List.length_append, List.length_cons, List.length_nil]
      push_cast at hgt ⊢
      omega
    · next hgt =>
      rw [List.length_append, List.length_cons, List.length_nil] at hgt ⊢
      push_cast at hgt ⊢
      omega
  · intro c now key value hcontains hfull hcap
    have hfilter : c.data.filter (fun e => !decide (e.1 = key)) = c.data := by
      rw [List.filter_eq_self]
      intro e he
      have := List.any_eq_false.mp hcontains e he
      simpa using this
    unfold LruCache.set
    dsimp only
    set ea : Option Time := if c.ttl_seconds > 0 then some (now + c.ttl_seconds) else none
    rw [hfilter]
    split
    · next hgt =>
      rcases hd : c.data with _ | ⟨d0, dtail⟩
      · rw [hd] at hfull
        simp at hfull
        omega
      · simp only [List.cons_append, List.tail_cons]
    · next hgt =>
      rw [List.length_append, List.length_cons, List.length_nil] at hgt
      push_cast at hgt
      omega



/-- Claim C6, witness: the promotion scenario on a concrete two-tier
cache. -/
theorem multilevel_cache_spec_witness :
    (({ l1 := sampleLoadedCache.l1.clear, l2 := sampleLoadedCache.l2 } :
        MultiLevelCache).get 1 "k").1 = Val.str "v" ∧
    (({ l1 := sampleLoadedCache.l1.clear, l2 := sampleLoadedCache.l2 } :
        MultiLevelCache).get 1 "k").2.l1.containsKey "k" = true :=
  multilevel_cache_spec.2.2.2
    (MultiLevelCache.mk (LruCache.init 4 0) (some (SqliteCache.init 0)))
    (SqliteCache.init 0) "k" (Val.str "v") 0 1 rfl (by decide) (by decide)
    (Or.inl (by decide))

/-- Claim C7, witness: the exact-eviction conjunct applied to the concrete
capacity-2 cache holding "a" and "b" when "c" is inserted. -/
theorem lru_eviction_spec_witness :
    sampleLru3.data =
      (((LruCache.init 2 0).set 0 "a" (Val.str "va")).set 1 "b" (Val.str "vb")).data.tail ++
        [("c", none, Val.str "vc")] :=
  lru_eviction_spec.2.2.1
    (((LruCache.init 2 0).set 0 "a" (Val.str "va")).set 1 "b" (Val.str "vb"))
    2 "c" (Val.str "vc") (by decide) (by decide) (by decide)

/-- Claim C8: for the L1 and L2 layers independently, an entry set with a
positive TTL is retrievable at any time strictly before the TTL elapses
and yields nothing once it has elapsed, the expired entry being deleted on
that access; an entry set with TTL zero never expires. -/
theorem ttl_expiry_spec :
    (∀ (c : LruCache) (now0 now1 : Time) (key : String) (value : Val),
      1 ≤ c.capacity → 0 < c.ttl_seconds → now1 < now0 + c.ttl_seconds →
      ((c.set now0 key value).get now1 key).1 = value) ∧
    (∀ (c : LruCache) (now0 now1 : Time) (key : String) (value : Val),
      1 ≤ c.capacity → 0 < c.ttl_seconds → now0 + c.ttl_seconds ≤ now1 →
      ((c.set now0 key value).get now1 key).1 = Val.null ∧
      ((c.set now0 key value).get now1 key).2.containsKey key = false) ∧
    (∀ (c : LruCache) (now0 now1 : Time) (key : String) (value : Val),
      1 ≤ c.capacity → c.ttl_seconds = 0 →
      ((c.set now0 key value).get now1 key).1 = value) ∧
    (∀ (s : SqliteCache) (now0 now1 : Time) (key : String) (value : Val),
      0 < s.ttl_seconds → now1 < now0 + s.ttl_seconds →
      ((s.set now0 key value).get now1 key).1 = value) ∧
    (∀ (s : SqliteCache) (now0 now1 : Time) (key : String) (value : Val),
      0 < s.ttl_seconds → now0 + s.ttl_seconds ≤ now1 →
      ((s.set now0 key value).get now1 key).1 = Val.null ∧
      ((s.set now0 key value).get now1 key).2.containsKey key = false) ∧
    (∀ (s : SqliteCache) (now0 now1 : Time) (key : String) (value : Val),
      s.ttl_seconds = 0 →
      ((s.set now0 key value).get now1 key).1 = value) := by
  refine ⟨?_, ?_, ?_, ?_, ?_, ?_⟩
  · intro c now0 now1 key value hcap _ hlt
    exact lruSet_get_live c now0 now1 key value hcap (Or.inr hlt)
  · intro c now0 now1 key value hcap ht hexp
    exact lruSet_get_expired c now0 now1 key value hcap ht hexp
  · intro c now0 now1 key value hcap ht
    exact lruSet_get_live c now0 now1 key value hcap (Or.inl (le_of_eq ht))
  · intro s now0 now1 key value _ hlt
    exact (sqliteSet_get_live s now0 now1 key value (Or.inr hlt)).1
  · intro s now0 now1 key value ht hexp
    exact sqliteSet_get_expired s now0 now1 key value ht hexp
  · intro s now0 now1 key value ht
    exact (sqliteSet_get_live s now0 now1 key value (Or.inl (le_of_eq ht))).1

/-- Claim C8, witness: concrete set-then-get runs on both layers, before
and after expiry and with TTL zero. -/
theorem ttl_expiry_spec_witness :
    (((LruCache.init 4 10).set 0 "k" (Val.num 7)).get 9 "k").1 = Val.num 7 ∧
    (((LruCache.init 4 10).set 0 "k" (Val.num 7)).get 10 "k").1 = Val.null ∧
    (((LruCache.init 4 0).set 0 "k" (Val.num 7)).get 1000 "k").1 = Val.num 7 ∧
    (((SqliteCache.init 10).set 0 "k" (Val.num 7)).get 9 "k").1 = Val.num 7 ∧
    (((SqliteCache.init 10).set 0 "k" (Val.num 7)).get 10 "k").1 = Val.null ∧
    (((SqliteCache.init 0).set 0 "k" (Val.num 7)).get 1000 "k").1 = Val.num 7 :=
  ⟨ttl_expiry_spec.1 (LruCache.init 4 10) 0 9 "k" (Val.num 7)
      (by decide) (by decide) (by decide),
   (ttl_expiry_spec.2.1 (LruCache.init 4 10) 0 10 "k" (Val.num 7)
      (by decide) (by decide) (by decide)).1,
   ttl_expiry_spec.2.2.1 (LruCache.init 4 0) 0 1000 "k" (Val.num 7)
      (by decide) (by decide),
   ttl_expiry_spec.2.2.2.1 (SqliteCache.init 10) 0 9 "k" (Val.num 7)
      (by decide) (by decide),
   (ttl_expiry_spec.2.2.2.2.1 (SqliteCache.init 10) 0 10 "k" (Val.num 7)
      (by decide) (by decide)).1,
   ttl_expiry_spec.2.2.2.2.2 (SqliteCache.init 0) 0 1000 "k" (Val.num 7)
      (by decide)⟩



/-- Claim C9: a stored Python `None` is indistinguishable from a miss: the
composite `get` treats a `None` result from L1 or L2 as absence and does
not promote it; the L2 `get` returns `None` without deleting the row when
the payload fails JSON decoding; and when every value stored under a key
is null (or undecodable), every composite `get` reports a miss. -/
theorem null_miss_spec :
    (∀ (c : MultiLevelCache) (now : Time) (key : String),
      (c.l1.get now key).1 = Val.null → c.l2 = none →
      c.get now key = (Val.null, { c with l1 := (c.l1.get now key).2 })) ∧
    (∀ (c : MultiLevelCache) (s2 : SqliteCache) (now : Time) (key : String),
      (c.l1.get now key).1 = Val.null → c.l2 = some s2 → (s2.get now key).1 = Val.null →
      c.get now key = (Val.null, { l1 := (c.l1.get now key).2, l2 := some (s2.get now key).2 })) ∧
    (∀ (s : SqliteCache) (now : Time) (key : String) (u : Time) (t : Int),
      s.rows.find? (fun r => decide (r.1 = key)) = some (key, Payload.bad, u, t) →
      ¬(t > 0 ∧ u + t ≤ now) → s.get now key = (Val.null, s)) ∧
    (∀ (c : MultiLevelCache) (now : Time) (key : String),
      (∀ e ∈ c.l1.data, e.1 = key → e.2.2 = Val.null) →
      (∀ s2, c.l2 = some s2 → ∀ r ∈ s2.rows, r.1 = key →
        r.2.1 = Payload.ok Val.null ∨ r.2.1 = Payload.bad) →
      (c.get now key).1 = Val.null) := by
  refine ⟨?_, ?_, ?_, ?_⟩
  · intro c now key h1 hl2
    unfold MultiLevelCache.get
    dsimp only
    rw [if_neg (fun hn => hn h1), hl2]
  · intro c s2 now key h1 hl2 h2
    unfold MultiLevelCache.get
    dsimp only
    rw [if_neg (fun hn => hn h1), hl2]
    dsimp only
    rw [if_neg (fun hn => hn h2)]
  · intro s now key u t hfind hexp
    unfold SqliteCache.get
    rw [hfind]
    dsimp only
    rw [if_neg hexp]
  · intro c now key hstore1 hstore2
    have h1 : (c.l1.get now key).1 = Val.null :=
      lru_get_null_of_stored_null c.l1 now key hstore1
    unfold MultiLevelCache.get
    dsimp only
    rw [if_neg (fun hn => hn h1)]
    rcases hl2 : c.l2 with _ | s2
    · rfl
    · dsimp only
      have h2 : (s2.get now key).1 = Val.null :=
        sqlite_get_null_of_stored_null s2 now key (hstore2 s2 hl2)
      rw [if_neg (fun hn => hn h2)]

/-- Claim C9, witness: a concrete undecodable L2 row and a concrete cache
whose stored value under "k" is null. -/
theorem null_miss_spec_witness :
    sampleBadSqlite.get 5 "k" = (Val.null, sampleBadSqlite) ∧
    (sampleNullCache.get 5 "k").1 = Val.null :=
  ⟨null_miss_spec.2.2.1 sampleBadSqlite 5 "k" 0 0 rfl (by decide),
   null_miss_spec.2.2.2 sampleNullCache 5 "k" (by decide) (by decide)⟩

/-- Claim C10: the `LruCache` constructor normalises its arguments: any
capacity at most zero becomes effective capacity one (one entry is held
before any eviction), and any negative TTL becomes zero, making entries
never expire. -/
theorem lru_init_clamps :
    (∀ capacity ttl_seconds : Int, capacity ≤ 0 →
      (LruCache.init capacity ttl_seconds).capacity = 1) ∧
    (∀ capacity ttl_seconds : Int, ttl_seconds < 0 →
      (LruCache.init capacity ttl_seconds).ttl_seconds = 0) ∧
    (∀ (capacity ttl_seconds : Int) (now now' : Time) (key : String) (value : Val),
      ttl_seconds ≤ 0 →
      (((LruCache.init capacity ttl_seconds).set now key value).get now' key).1 = value) ∧
    (∀ (capacity ttl_seconds : Int) (now : Time) (key : String) (value : Val),
      ((LruCache.init capacity ttl_seconds).set now key value).data.length = 1) := by
  refine ⟨?_, ?_, ?_, ?_⟩
  · intro capacity ttl h
    simp [LruCache.init]
    omega
  · intro capacity ttl h
    simp [LruCache.init]
    omega
  · intro capacity ttl now now' key value h
    refine lruSet_get_live _ now now' key value (le_max_left 1 capacity) (Or.inl ?_)
    show max 0 ttl ≤ 0
    omega
  · intro capacity ttl now key value
    unfold LruCache.set LruCache.init
    dsimp only
    split
    all_goals
      split
      · next hgt =>
        exfalso
        have hle := le_max_left (1 : Int) capacity
        generalize hm : (1 : Int) ⊔ capacity = m at hgt hle
        simp at hgt
        omega
      · rfl

/-- Claim C10, witness: the constructor applied to capacity -5 and TTL
-3. -/
theorem lru_init_clamps_witness :
    (LruCache.init (-5) (-3)).capacity = 1 ∧
    (LruCache.init (-5) (-3)).ttl_seconds = 0 ∧
    (((LruCache.init (-5) (-3)).set 0 "k" (Val.num 9)).get 1000 "k").1 = Val.num 9 :=
  ⟨lru_init_clamps.1 (-5) (-3) (by decide),
   lru_init_clamps.2.1 (-5) (-3) (by decide),
   lru_init_clamps.2.2.1 (-5) (-3) 0 1000 "k" (Val.num 9) (by decide)⟩

end JkMem
